import Mathlib

/-! # drone-go-coverage: the plugin of `cmd/plugin/main.go`

A shallow embedding of the coverage plugin and theorems about it.

* Go strings are Lean `String`s (sequences of code points).
* `float64` is a type parameter `F` together with the operations the program
  applies to it (`Float64Ops`); nothing is assumed about them beyond `0 == 0`.
* The standard-library calls whose result the program only inspects
  (`strconv.ParseFloat`, `regexp.MatchString`, `filepath.Dir`,
  `filepath.Join`, `json.Unmarshal`) are fields of `Lib`.
* A Go `map` is the list of its entries; every `range` over a map goes through
  an explicit ordering function, because Go leaves that order unspecified.
* Printing to standard output is not modelled.
-/

namespace DroneGoCoverage

/-! ## float64 and the library calls -/

/-- The `float64` operations used by the program. -/
structure Float64Ops (F : Type) where
  /-- The zero value of `float64`. -/
  zero : F
  /-- The comparison `a < b`. -/
  lt : F → F → Bool
  /-- The comparison `a == 0`. -/
  isZero : F → Bool
  /-- The sum `a + b`. -/
  add : F → F → F
  /-- The quotient `a / b`. -/
  div : F → F → F
  /-- The conversion `float64(n)` of an `int` counter. -/
  ofInt : Nat → F
  /-- The zero value compares equal to zero. -/
  isZero_zero : isZero zero = true

/-- The `float64` operations and the standard-library functions called by the program. -/
structure Lib (F : Type) extends Float64Ops F where
  /-- The call `strconv.ParseFloat(s, 64)`; `none` stands for a non-nil error. -/
  ParseFloat : String → Option F
  /-- The call `regexp.MatchString(pattern, s)`; `none` stands for a non-nil error. -/
  MatchString : String → String → Option Bool
  /-- The call `filepath.Dir(path)`. -/
  Dir : String → String
  /-- The call `filepath.Join(dir, file)`. -/
  Join : String → String → String
  /-- The call `json.Unmarshal` into a fresh `map[string]float64`: the entries of the
  resulting map, or `none` for a non-nil error. -/
  Unmarshal : String → Option (List (String × F))

/-! ## Strings -/

/-- The predicate `unicode.IsSpace`. -/
def isSpace (c : Char) : Bool :=
  c = '\t' || c = '\n' || c = Char.ofNat 0x0B || c = Char.ofNat 0x0C || c = '\r' || c = ' '
    || c = Char.ofNat 0x85 || c = Char.ofNat 0xA0 || c = Char.ofNat 0x1680
    || (0x2000 ≤ c.toNat && c.toNat ≤ 0x200A)
    || c = Char.ofNat 0x2028 || c = Char.ofNat 0x2029 || c = Char.ofNat 0x202F
    || c = Char.ofNat 0x205F || c = Char.ofNat 0x3000

/-- Splitting of a character sequence at every occurrence of `sep`. -/
def splitChars (sep : Char) : List Char → List (List Char)
  | [] => [[]]
  | c :: cs =>
    if c = sep then [] :: splitChars sep cs
    else
      match splitChars sep cs with
      | [] => [[c]]
      | hd :: tl => (c :: hd) :: tl

/-- The call `strings.Split(s, string(sep))` for a one-character separator. -/
def Split (s : String) (sep : Char) : List String :=
  (splitChars sep s.data).map String.mk

/-- Whether a character sequence is empty or starts with a space. -/
def startsWithSpace : List Char → Bool
  | [] => true
  | d :: _ => isSpace d

/-- A non-space character put in front of the fields of the text that follows it: it is a
field of its own when that text is empty or starts with a space, and it extends the first
field otherwise. -/
def pushChar (c : Char) (ends : Bool) (fields : List (List Char)) : List (List Char) :=
  if ends then [c] :: fields
  else
    match fields with
    | [] => [[c]]
    | f :: fs => (c :: f) :: fs

/-- The maximal runs of non-space characters of a character sequence. -/
def fieldsChars : List Char → List (List Char)
  | [] => []
  | c :: cs =>
    if isSpace c then fieldsChars cs
    else pushChar c (startsWithSpace cs) (fieldsChars cs)

/-- The call `strings.Fields(s)`. -/
def Fields (s : String) : List String :=
  (fieldsChars s.data).map String.mk

/-- Whether `sub` occurs in the character sequence as a contiguous block. -/
def containsChars (sub : List Char) : List Char → Bool
  | [] => sub.isEmpty
  | c :: cs => sub.isPrefixOf (c :: cs) || containsChars sub cs

/-- The call `strings.Contains(s, sub)`. -/
def Contains (s sub : String) : Bool :=
  containsChars sub.data s.data

/-- The position of the last occurrence of `c`, if any. -/
def lastIndexChars (c : Char) : List Char → Option Nat
  | [] => none
  | x :: xs =>
    match lastIndexChars c xs with
    | some i => some (i + 1)
    | none => if x = c then some 0 else none

/-- The call `strings.LastIndex(s, string(c))` for a one-character (ASCII) `c`;
`none` stands for `-1`. -/
def LastIndex (s : String) (c : Char) : Option Nat :=
  lastIndexChars c s.data

/-- The call `strings.TrimSuffix(s, string(c))` for a one-character `c`. -/
def TrimSuffix (s : String) (c : Char) : String :=
  if s.data.getLast? = some c then String.mk s.data.dropLast else s

/-- The call `strconv.ParseBool(s)`; `none` stands for a non-nil error. -/
def ParseBool (s : String) : Option Bool :=
  if s = "1" ∨ s = "t" ∨ s = "T" ∨ s = "TRUE" ∨ s = "true" ∨ s = "True" then some true
  else if s = "0" ∨ s = "f" ∨ s = "F" ∨ s = "FALSE" ∨ s = "false" ∨ s = "False" then some false
  else none

/-! ## Data model -/

/-- The plugin configuration. -/
structure Config (F : Type) where
  Threshold : F
  PerPackageThreshold : List (String × F)
  Subdirectory : String
  OutputFormat : String
  IncludePackages : List String
  ExcludePackages : List String
  TestTimeout : String
  TestArgs : List String
  FailBuild : Bool
  CoverMode : String
  OutputDir : String
  CoverProfile : String
  HTMLReport : Bool
  JSONReport : Bool
  VerboseOutput : Bool

/-- The constant `statusPass`. -/
def statusPass : String := "pass"

/-- The constant `statusFail`. -/
def statusFail : String := "fail"

/-- A single package coverage result. -/
structure CoverageResult (F : Type) where
  Package : String
  Coverage : F
  Status : String
deriving DecidableEq

/-- The complete coverage report. -/
structure FullReport (F : Type) where
  Timestamp : String
  TotalCoverage : F
  Threshold : F
  Status : String
  PackageResults : List (CoverageResult F)

/-! ## generateReport -/

/-- The inner loop of `generateReport`: the threshold that applies to package `pkg` when
the `range` over the per-package map yields `entries` in this order. A pattern on which
`regexp.MatchString` fails is skipped (`continue`); the first match ends the loop (`break`). -/
def packageThreshold {F : Type} (lib : Lib F) (threshold : F) (pkg : String) :
    List (String × F) → F
  | [] => threshold
  | (pattern, pkgThreshold) :: rest =>
    match lib.MatchString pattern pkg with
    | none => packageThreshold lib threshold pkg rest
    | some true => pkgThreshold
    | some false => packageThreshold lib threshold pkg rest

/-- The outer loop of `generateReport` from index `i` on: the report status and the package
results after the remaining iterations. `order i m` is the order in which the `range` over
the map `m` yields its entries during iteration `i`. -/
def reportLoop {F : Type} (lib : Lib F) (order : Nat → List (String × F) → List (String × F))
    (config : Config F) : Nat → List (CoverageResult F) → String →
    String × List (CoverageResult F)
  | _, [], status => (status, [])
  | i, result :: rest, status =>
    let threshold := packageThreshold lib config.Threshold result.Package
      (order i config.PerPackageThreshold)
    if lib.lt result.Coverage threshold then
      let out := reportLoop lib order config (i + 1) rest
        (if config.FailBuild then statusFail else status)
      (out.1, { result with Status := statusFail } :: out.2)
    else
      let out := reportLoop lib order config (i + 1) rest status
      (out.1, result :: out.2)

/-- The function `generateReport`; `now` is `time.Now().Format(time.RFC3339)`. -/
def generateReport {F : Type} (lib : Lib F)
    (order : Nat → List (String × F) → List (String × F)) (now : String)
    (config : Config F) (results : List (CoverageResult F)) (totalCoverage : F) :
    FullReport F :=
  let out := reportLoop lib order config 0 results
    (if lib.lt totalCoverage config.Threshold then statusFail else statusPass)
  { Timestamp := now
    TotalCoverage := totalCoverage
    Threshold := config.Threshold
    Status := out.1
    PackageResults := out.2 }

/-! ## Maps -/

/-- The value stored under key `k` in a map given by its entries, or `d` (the zero value of
the element type) when the key is absent. -/
def mapGet {V : Type} (m : List (String × V)) (k : String) (d : V) : V :=
  match m with
  | [] => d
  | (k', v) :: rest => if k' = k then v else mapGet rest k d

/-- The assignment `m[k] = v` on a map given by its entries. -/
def mapSet {V : Type} (m : List (String × V)) (k : String) (v : V) : List (String × V) :=
  match m with
  | [] => [(k, v)]
  | (k', v') :: rest => if k' = k then (k, v) :: rest else (k', v') :: mapSet rest k v

/-! ## loadConfig -/

/-- The function `getEnvBool`; `env` is `os.Getenv`. -/
def getEnvBool (env : String → String) (key : String) (defaultValue : Bool) : Bool :=
  if env key ≠ "" then
    match ParseBool (env key) with
    | none => defaultValue
    | some parsedValue => parsedValue
  else defaultValue

/-- The assignments of `loadConfig` that cannot fail: every field other than the two
thresholds, read from the environment. -/
def loadSettings {F : Type} (env : String → String) (config : Config F) : Config F :=
  { config with
    Subdirectory := env "PLUGIN_SUBDIRECTORY"
    OutputFormat := env "PLUGIN_OUTPUT_FORMAT"
    TestTimeout := env "PLUGIN_TEST_TIMEOUT"
    OutputDir := env "PLUGIN_OUTPUT_DIR"
    CoverProfile := env "PLUGIN_COVER_PROFILE"
    CoverMode := env "PLUGIN_COVER_MODE"
    HTMLReport := getEnvBool env "PLUGIN_HTML_REPORT" false
    JSONReport := getEnvBool env "PLUGIN_JSON_REPORT" false
    FailBuild := getEnvBool env "PLUGIN_FAIL_BUILD" true
    VerboseOutput := getEnvBool env "PLUGIN_VERBOSE_OUTPUT" false
    IncludePackages :=
      if env "PLUGIN_INCLUDE_PACKAGES" ≠ "" then Split (env "PLUGIN_INCLUDE_PACKAGES") ','
      else config.IncludePackages
    ExcludePackages :=
      if env "PLUGIN_EXCLUDE_PACKAGES" ≠ "" then Split (env "PLUGIN_EXCLUDE_PACKAGES") ','
      else config.ExcludePackages
    TestArgs :=
      if env "PLUGIN_TEST_ARGS" ≠ "" then Fields (env "PLUGIN_TEST_ARGS")
      else config.TestArgs }

/-- The function `loadConfig`; `env` is `os.Getenv`. The error carries the fixed part of the
message of the Go error. -/
def loadConfig {F : Type} (lib : Lib F) (env : String → String) : Except String (Config F) :=
  let config : Config F :=
    { Threshold := lib.zero
      PerPackageThreshold := []
      Subdirectory := ""
      OutputFormat := "text"
      IncludePackages := []
      ExcludePackages := []
      TestTimeout := ""
      TestArgs := []
      FailBuild := true
      CoverMode := "atomic"
      OutputDir := ""
      CoverProfile := ""
      HTMLReport := false
      JSONReport := false
      VerboseOutput := false }
  let thresholdStr := env "PLUGIN_THRESHOLD"
  match (if thresholdStr ≠ "" then
      (lib.ParseFloat thresholdStr).map fun threshold => { config with Threshold := threshold }
    else some config) with
  | none => .error "failed to parse threshold"
  | some config =>
    let perPackageThreshold := env "PLUGIN_PER_PACKAGE_THRESHOLD"
    match (if perPackageThreshold ≠ "" then
        (lib.Unmarshal perPackageThreshold).map fun m => { config with PerPackageThreshold := m }
      else some config) with
    | none => .error "failed to parse per-package threshold"
    | some config =>
      let config := loadSettings env config
      if lib.isZero config.Threshold && config.PerPackageThreshold.length == 0 then
        .error "no threshold or per-package threshold set"
      else .ok config

/-! ## runTests -/

/-- The argument list that `runTests` passes to the `go` command. -/
def testArgs {F : Type} (config : Config F) (coverProfile : String) : List String :=
  let args := ["test", "-coverprofile=" ++ coverProfile, "-covermode=" ++ config.CoverMode]
  let args := if config.TestTimeout ≠ "" then args ++ ["-timeout=" ++ config.TestTimeout] else args
  let args := if config.TestArgs.length > 0 then args ++ config.TestArgs else args
  if config.IncludePackages.length > 0 then args ++ config.IncludePackages
  else args ++ ["./..."]

/-! ## extractCoverage -/

/-- The ways in which a call can fail: a returned Go error (with the fixed part of its
message) or a run-time panic. -/
inductive Failure where
  | error (msg : String)
  | panic (msg : String)
deriving DecidableEq

/-- The variables that the line loop of `extractCoverage` updates. -/
structure Scan (F : Type) where
  packageCoverageSum : List (String × F)
  packageFuncCount : List (String × Nat)
  coverageLine : String

/-- The package name that `extractCoverage` derives from the first field of a line. -/
def packageName {F : Type} (lib : Lib F) (field : String) : String :=
  let pkgPath :=
    match LastIndex field ':' with
    | some idx => String.mk (field.data.take idx)
    | none => field
  match LastIndex pkgPath '/' with
  | some _ => lib.Dir pkgPath
  | none => pkgPath

/-- One iteration of the line loop of `extractCoverage`. -/
def scanLine {F : Type} (lib : Lib F) (acc : Scan F) (line : String) : Scan F :=
  if line = "" then acc
  else if Contains line "total:" then { acc with coverageLine := line }
  else
    match Fields line with
    | p0 :: p1 :: p2 :: ps =>
      let pkgName := packageName lib p0
      let coverageStr := TrimSuffix ((p0 :: p1 :: p2 :: ps).getLast (by simp)) '%'
      match lib.ParseFloat coverageStr with
      | none => acc
      | some coverage =>
        { acc with
          packageCoverageSum := mapSet acc.packageCoverageSum pkgName
            (lib.add (mapGet acc.packageCoverageSum pkgName lib.zero) coverage)
          packageFuncCount := mapSet acc.packageFuncCount pkgName
            (mapGet acc.packageFuncCount pkgName 0 + 1) }
    | _ => acc

/-- The second loop of `extractCoverage`: one result per entry of the map of sums.
`order m` is the order in which the `range` over the map `m` yields its entries. -/
def packageResults {F : Type} (lib : Lib F) (order : List (String × F) → List (String × F))
    (acc : Scan F) : List (CoverageResult F) :=
  (order acc.packageCoverageSum).map fun entry =>
    { Package := entry.1
      Coverage := lib.div entry.2 (lib.ofInt (mapGet acc.packageFuncCount entry.1 0))
      Status := statusPass }

/-- The part of `extractCoverage` that follows the subprocess: the parsing of its output.
Indexing the fields of the total line outside their range is a panic. -/
def parseCoverage {F : Type} (lib : Lib F) (order : List (String × F) → List (String × F))
    (output : String) : Except Failure (List (CoverageResult F) × F) :=
  let lines := Split output '\n'
  let acc := lines.foldl (scanLine lib) ⟨[], [], ""⟩
  let results := packageResults lib order acc
  if acc.coverageLine ≠ "" then
    match (Fields acc.coverageLine).getLast? with
    | none => .error (.panic "index out of range")
    | some last =>
      match lib.ParseFloat (TrimSuffix last '%') with
      | none => .error (.error "failed to parse total coverage")
      | some totalCoverage => .ok (results, totalCoverage)
  else .error (.error "failed to find total coverage line")

/-- The function `extractCoverage`; `output` is the combined output of the coverage-listing
subprocess, or `none` when the subprocess failed. -/
def extractCoverage {F : Type} (lib : Lib F) (order : List (String × F) → List (String × F))
    (output : Option String) : Except Failure (List (CoverageResult F) × F) :=
  match output with
  | none => .error (.error "failed to extract coverage")
  | some out => parseCoverage lib order out

/-! ## main -/

/-- Everything outside the process that `main` depends on. -/
structure World (F : Type) where
  /-- The call `os.Getenv`. -/
  env : String → String
  /-- The formatted current time. -/
  now : String
  /-- Whether `os.Chdir` succeeds. -/
  chdir : String → Bool
  /-- Whether `os.MkdirAll` succeeds. -/
  mkdirAll : String → Bool
  /-- The combined output of a subprocess given by its command line, or `none` when
  running it returns an error. -/
  command : List String → Option String
  /-- The order of the `range` over the per-package thresholds in each iteration of
  `generateReport`. -/
  orderThresholds : Nat → List (String × F) → List (String × F)
  /-- The order of the `range` over the package sums in `extractCoverage`. -/
  orderPackages : List (String × F) → List (String × F)

/-- The subprocess that `outputResults` starts, if any (through `outputHTML`). -/
def outputResults {F : Type} (lib : Lib F) (config : Config F) (coverProfile : String) :
    List (List String) :=
  if config.HTMLReport then
    let outputPath :=
      if config.OutputDir ≠ "" then lib.Join config.OutputDir "coverage-report.html"
      else "coverage-report.html"
    [["go", "tool", "cover", "-html=" ++ coverProfile, "-o=" ++ outputPath]]
  else []

/-- The observable end of a run: the exit code of the process and the command lines of
the subprocesses it started, in order. -/
structure Exit where
  code : Nat
  commands : List (List String)
deriving DecidableEq

/-- The coverage profile path that `main` uses. -/
def coverProfilePath {F : Type} (config : Config F) : String :=
  if config.CoverProfile ≠ "" then config.CoverProfile else "drone-go-coverage.out"

/-- The function `main`. A panic ends the process with exit code 2. -/
def main {F : Type} (lib : Lib F) (w : World F) : Exit :=
  match loadConfig lib w.env with
  | .error _ => ⟨1, []⟩
  | .ok config =>
    if config.Subdirectory ≠ "" ∧ w.chdir config.Subdirectory = false then ⟨1, []⟩
    else if config.OutputDir ≠ "" ∧ w.mkdirAll config.OutputDir = false then ⟨1, []⟩
    else
      let coverProfile := coverProfilePath config
      let testCommand := "go" :: testArgs config coverProfile
      match w.command testCommand with
      | none => ⟨1, [testCommand]⟩
      | some _ =>
        let coverCommand := ["go", "tool", "cover", "-func=" ++ coverProfile]
        match extractCoverage lib w.orderPackages (w.command coverCommand) with
        | .error (.error _) => ⟨1, [testCommand, coverCommand]⟩
        | .error (.panic _) => ⟨2, [testCommand, coverCommand]⟩
        | .ok (results, totalCoverage) =>
          let report := generateReport lib w.orderThresholds w.now config results totalCoverage
          let commands := [testCommand, coverCommand] ++ outputResults lib config coverProfile
          if report.Status = statusFail ∧ config.FailBuild then ⟨1, commands⟩
          else ⟨0, commands⟩

/-! ## A concrete library for the examples

Exact fractions stand for `float64`, and each library function is implemented on the
fragment of its inputs that the examples use. -/

/-- The fraction `num / den`; `den = 0` stands for a value that is not a finite number. -/
structure Frac where
  num : Int
  den : Nat
deriving DecidableEq

/-- The comparison `a < b` of fractions; false when either side is not finite. -/
def Frac.lt (a b : Frac) : Bool :=
  a.den != 0 && b.den != 0 && decide (a.num * b.den < b.num * a.den)

/-- The sum of two fractions. -/
def Frac.add (a b : Frac) : Frac :=
  ⟨a.num * b.den + b.num * a.den, a.den * b.den⟩

/-- The quotient of two fractions. -/
def Frac.div (a b : Frac) : Frac :=
  if b.num < 0 then ⟨-(a.num * b.den), a.den * b.num.natAbs⟩
  else ⟨a.num * b.den, a.den * b.num.natAbs⟩

/-- The number written by a sequence of decimal digits, continuing from `acc`. -/
def natOfDigits : List Char → Nat → Option Nat
  | [], acc => some acc
  | c :: cs, acc => if c.isDigit then natOfDigits cs (10 * acc + (c.toNat - 48)) else none

/-- An unsigned decimal numeral `digits` or `digits.digits`. -/
def parseUnsigned (body : List Char) : Option Frac :=
  match splitChars '.' body with
  | [ip] => if ip = [] then none else (natOfDigits ip 0).map fun n => ⟨n, 1⟩
  | [ip, fp] =>
    if ip = [] ∨ fp = [] then none
    else
      match natOfDigits ip 0, natOfDigits fp 0 with
      | some n, some m => some ⟨n * 10 ^ fp.length + m, 10 ^ fp.length⟩
      | _, _ => none
  | _ => none

/-- A plain decimal numeral with an optional sign; anything else is a parse error. -/
def parseDecimal (s : String) : Option Frac :=
  match s.data with
  | '-' :: body => (parseUnsigned body).map fun q => ⟨-q.num, q.den⟩
  | '+' :: body => parseUnsigned body
  | body => parseUnsigned body

/-- Characters that stand for themselves in a regular expression. -/
def isLiteralChar (c : Char) : Bool :=
  c.isAlphanum || c = '/' || c = '_' || c = '-'

/-- Matching of a pattern that is a literal text with an optional leading `^`; every other
pattern is reported as an error. -/
def literalMatch (pattern s : String) : Option Bool :=
  match pattern.data with
  | '^' :: lit => if lit.all isLiteralChar then some (lit.isPrefixOf s.data) else none
  | lit => if lit.all isLiteralChar then some (containsChars lit s.data) else none

/-- The directory of a slash-separated path that is already clean. -/
def cleanDir (p : String) : String :=
  match lastIndexChars '/' p.data with
  | none => "."
  | some 0 => "/"
  | some i => String.mk (p.data.take i)

/-- JSON white space. -/
def isJsonSpace (c : Char) : Bool :=
  c = ' ' || c = '\t' || c = '\n' || c = '\r'

/-- A character sequence without leading and trailing JSON white space. -/
def trimJson (cs : List Char) : List Char :=
  ((cs.dropWhile isJsonSpace).reverse.dropWhile isJsonSpace).reverse

/-- One `"key": number` member of a flat JSON object. -/
def parseMember (cs : List Char) : Option (String × Frac) :=
  match splitChars ':' cs with
  | [k, v] =>
    match trimJson k with
    | '"' :: rest =>
      if rest.getLast? = some '"' ∧ rest.dropLast.all (fun c => c != '"' && c != '\\') then
        (parseDecimal (String.mk (trimJson v))).map fun q => (String.mk rest.dropLast, q)
      else none
    | _ => none
  | _ => none

/-- Folding of the members of a flat JSON object into a map; a later duplicate key wins. -/
def parseMembers : List (List Char) → List (String × Frac) → Option (List (String × Frac))
  | [], m => some m
  | item :: items, m =>
    match parseMember item with
    | none => none
    | some (k, v) => parseMembers items (mapSet m k v)

/-- Decoding of `null` and of a flat JSON object whose keys hold no comma, colon, quote
or backslash; anything else is reported as an error. -/
def parseFlatObject (s : String) : Option (List (String × Frac)) :=
  let body := trimJson s.data
  if body = "null".data then some []
  else
    match body with
    | '{' :: rest =>
      if rest.getLast? = some '}' then
        if (trimJson rest.dropLast) = [] then some []
        else parseMembers (splitChars ',' rest.dropLast) []
      else none
    | _ => none

/-- The library used in the examples. -/
def exampleLib : Lib Frac where
  zero := ⟨0, 1⟩
  lt := Frac.lt
  isZero a := a.den != 0 && a.num == 0
  add := Frac.add
  div := Frac.div
  ofInt n := ⟨n, 1⟩
  isZero_zero := by decide
  ParseFloat := parseDecimal
  MatchString := literalMatch
  Dir := cleanDir
  Join dir file := dir ++ "/" ++ file
  Unmarshal := parseFlatObject

/-- A configuration of the examples: the given thresholds and fail-build flag, every other
field as `loadConfig` leaves it in an environment that sets nothing else. -/
def exampleConfig (threshold : Frac) (perPackage : List (String × Frac)) (failBuild : Bool) :
    Config Frac :=
  { Threshold := threshold
    PerPackageThreshold := perPackage
    Subdirectory := ""
    OutputFormat := ""
    IncludePackages := []
    ExcludePackages := []
    TestTimeout := ""
    TestArgs := []
    FailBuild := failBuild
    CoverMode := ""
    OutputDir := ""
    CoverProfile := ""
    HTMLReport := false
    JSONReport := false
    VerboseOutput := false }

/-- An environment of the examples: it sets the threshold and the per-package threshold
variables to the given texts and leaves every other variable unset. -/
def exampleEnv (threshold perPackage : String) : String → String := fun key =>
  if key = "PLUGIN_THRESHOLD" then threshold
  else if key = "PLUGIN_PER_PACKAGE_THRESHOLD" then perPackage
  else ""

/-- A world of the examples: the given environment, successful file operations, the given
output for the coverage-listing command and an empty output for every other command. -/
def exampleWorld (env : String → String) (listing : String) : World Frac where
  env := env
  now := "2024-01-01T00:00:00Z"
  chdir := fun _ => true
  mkdirAll := fun _ => true
  command := fun line =>
    if line = ["go", "tool", "cover", "-func=drone-go-coverage.out"] then some listing
    else some ""
  orderThresholds := fun _ l => l
  orderPackages := fun l => l

/-! ## Notions used in the statements -/

/-- The test `result.Coverage < threshold` of iteration `i` of `generateReport`. -/
def belowThreshold {F : Type} (lib : Lib F) (order : Nat → List (String × F) → List (String × F))
    (config : Config F) (i : Nat) (result : CoverageResult F) : Bool :=
  lib.lt result.Coverage
    (packageThreshold lib config.Threshold result.Package (order i config.PerPackageThreshold))

/-- Whether some package of `rs`, processed from iteration `i` on, is below its threshold. -/
def anyBelow {F : Type} (lib : Lib F) (order : Nat → List (String × F) → List (String × F))
    (config : Config F) : Nat → List (CoverageResult F) → Bool
  | _, [] => false
  | i, r :: rs => belowThreshold lib order config i r || anyBelow lib order config (i + 1) rs

/-- The total line of a listing: the last of its lines that contain "total:". -/
def totalLine (output : String) : Option String :=
  ((Split output '\n').filter fun line => Contains line "total:").getLast?

/-- The text before the last occurrence of `c`, or the whole text when `c` does not occur. -/
def cutAtLast (c : Char) (l : List Char) : List Char :=
  if c ∈ l then ((l.reverse.dropWhile fun x => x != c).drop 1).reverse else l

/-- The package key of a function line, in the words of the specification: the first field
cut at the last colon and then reduced to its containing directory, or the whole cut path
when it has no "/". -/
def packageKey {F : Type} (lib : Lib F) (first : String) : String :=
  if '/' ∈ cutAtLast ':' first.data then lib.Dir (String.mk (cutAtLast ':' first.data))
  else String.mk (cutAtLast ':' first.data)

/-- The package key and the percentage of a parsed function line, in the words of the
specification: the line is not empty, does not contain "total:", has at least three fields,
and its last field without a trailing "%" is a number. -/
def functionLine {F : Type} (lib : Lib F) (line : String) : Option (String × F) :=
  if line = "" ∨ Contains line "total:" = true ∨ (Fields line).length < 3 then none
  else
    match (Fields line).head?, (Fields line).getLast? with
    | some first, some last =>
      (lib.ParseFloat (TrimSuffix last '%')).map fun coverage => (packageKey lib first, coverage)
    | _, _ => none

/-- The percentages of the parsed function lines with the given package key, in line order. -/
def percentages {F : Type} (lib : Lib F) (lines : List String) (key : String) : List F :=
  ((lines.filterMap (functionLine lib)).filter fun e => e.1 = key).map Prod.snd

/-- The `float64` sum of a list, added up from zero in list order. -/
def floatSum {F : Type} (lib : Lib F) (l : List F) : F :=
  l.foldl lib.add lib.zero

/-- The invariant of the line loop of `extractCoverage`: the keys of the map of sums are
distinct and are the keys of the parsed function lines `seen` read so far, and the two maps
hold, per key, the sum and the number of the percentages read so far. -/
def Tracks {F : Type} (lib : Lib F) (sums : List (String × F)) (counts : List (String × Nat))
    (seen : List (String × F)) : Prop :=
  (sums.map Prod.fst).Nodup ∧
    (∀ k, k ∈ sums.map Prod.fst ↔ k ∈ seen.map Prod.fst) ∧
    (∀ k, mapGet sums k lib.zero =
      floatSum lib ((seen.filter fun e => e.1 = k).map Prod.snd)) ∧
    (∀ k, mapGet counts k 0 = (seen.filter fun e => e.1 = k).length)

/-! ## Facts about generateReport -/

theorem reportLoop_cons {F : Type} (lib : Lib F)
    (order : Nat → List (String × F) → List (String × F)) (config : Config F) (i : Nat)
    (r : CoverageResult F) (rs : List (CoverageResult F)) (st : String) :
    reportLoop lib order config i (r :: rs) st =
      if belowThreshold lib order config i r = true then
        ((reportLoop lib order config (i + 1) rs
            (if config.FailBuild then statusFail else st)).1,
          { r with Status := statusFail } ::
            (reportLoop lib order config (i + 1) rs
              (if config.FailBuild then statusFail else st)).2)
      else
        ((reportLoop lib order config (i + 1) rs st).1,
          r :: (reportLoop lib order config (i + 1) rs st).2) := by
  simp only [reportLoop, belowThreshold]

theorem exists_index_cons {α : Type} (P : Nat → α → Prop) (i : Nat) (a : α) (l : List α) :
    (∃ j x, (a :: l)[j]? = some x ∧ P (i + j) x) ↔
      (P i a ∨ ∃ j x, l[j]? = some x ∧ P (i + 1 + j) x) := by
  constructor
  · rintro ⟨j, x, hx, hP⟩
    cases j with
    | zero =>
      simp only [List.getElem?_cons_zero, Option.some.injEq] at hx
      subst hx
      exact Or.inl (by simpa using hP)
    | succ j =>
      simp only [List.getElem?_cons_succ] at hx
      refine Or.inr ⟨j, x, hx, ?_⟩
      have h : i + 1 + j = i + (j + 1) := by omega
      rw [h]
      exact hP
  · rintro (hP | ⟨j, x, hx, hP⟩)
    · exact ⟨0, a, by simp, by simpa using hP⟩
    · refine ⟨j + 1, x, by simpa using hx, ?_⟩
      have h : i + (j + 1) = i + 1 + j := by omega
      rw [h]
      exact hP

theorem anyBelow_iff {F : Type} (lib : Lib F)
    (order : Nat → List (String × F) → List (String × F)) (config : Config F) :
    ∀ (rs : List (CoverageResult F)) (i : Nat),
      anyBelow lib order config i rs = true ↔
        ∃ j r, rs[j]? = some r ∧ belowThreshold lib order config (i + j) r = true := by
  intro rs
  induction rs with
  | nil => intro i; simp [anyBelow]
  | cons r rs ih =>
    intro i
    rw [exists_index_cons (fun k x => belowThreshold lib order config k x = true), ← ih]
    simp [anyBelow]

/-- The status that the loop of `generateReport` leaves: it becomes "fail" exactly when the
fail-build flag is set and some remaining package is below its threshold. -/
theorem reportLoop_status {F : Type} (lib : Lib F)
    (order : Nat → List (String × F) → List (String × F)) (config : Config F) :
    ∀ (rs : List (CoverageResult F)) (i : Nat) (st : String),
      (reportLoop lib order config i rs st).1 =
        if (config.FailBuild && anyBelow lib order config i rs) = true
        then statusFail else st := by
  intro rs
  induction rs with
  | nil => intro i st; simp [reportLoop, anyBelow]
  | cons r rs ih =>
    intro i st
    rw [reportLoop_cons]
    by_cases hb : belowThreshold lib order config i r = true
    · rw [if_pos hb]
      simp only [ih, anyBelow, hb, Bool.true_or, Bool.and_true]
      by_cases hf : config.FailBuild = true
      · simp [hf]
      · simp [hf]
    · rw [if_neg hb]
      simp only [ih, anyBelow]
      simp [hb]

/-- The package results that the loop of `generateReport` leaves: entry `j` is marked
"fail" when it is below its threshold and is unchanged otherwise. -/
theorem reportLoop_results {F : Type} (lib : Lib F)
    (order : Nat → List (String × F) → List (String × F)) (config : Config F) :
    ∀ (rs : List (CoverageResult F)) (i : Nat) (st : String) (j : Nat),
      (reportLoop lib order config i rs st).2[j]? =
        (rs[j]?).map fun r =>
          if belowThreshold lib order config (i + j) r = true
          then { r with Status := statusFail } else r := by
  intro rs
  induction rs with
  | nil => intro i st j; simp [reportLoop]
  | cons r rs ih =>
    intro i st j
    rw [reportLoop_cons]
    have h : ∀ k, i + 1 + k = i + (k + 1) := by intro k; omega
    by_cases hb : belowThreshold lib order config i r = true
    · rw [if_pos hb]
      cases j with
      | zero => simp [hb]
      | succ j =>
        simp only [List.getElem?_cons_succ]
        rw [ih, h]
    · rw [if_neg hb]
      cases j with
      | zero => simp [hb]
      | succ j =>
        simp only [List.getElem?_cons_succ]
        rw [ih, h]

theorem statusFail_ne_statusPass : statusFail ≠ statusPass := by decide

/-- The overall status of a report in terms of the inputs of `generateReport`. -/
theorem generateReport_status_eq {F : Type} (lib : Lib F)
    (order : Nat → List (String × F) → List (String × F)) (now : String)
    (config : Config F) (results : List (CoverageResult F)) (totalCoverage : F) :
    (generateReport lib order now config results totalCoverage).Status =
      if (lib.lt totalCoverage config.Threshold ||
          (config.FailBuild && anyBelow lib order config 0 results)) = true
      then statusFail else statusPass := by
  simp only [generateReport]
  rw [reportLoop_status]
  by_cases h1 : lib.lt totalCoverage config.Threshold = true
  · simp [h1]
  · simp [h1]

/-- Entry `j` of the package results of a report. -/
theorem generateReport_results {F : Type} (lib : Lib F)
    (order : Nat → List (String × F) → List (String × F)) (now : String)
    (config : Config F) (results : List (CoverageResult F)) (totalCoverage : F) (j : Nat) :
    (generateReport lib order now config results totalCoverage).PackageResults[j]? =
      (results[j]?).map fun r =>
        if belowThreshold lib order config j r = true
        then { r with Status := statusFail } else r := by
  simp only [generateReport]
  rw [reportLoop_results]
  simp

theorem anyBelow_global {F : Type} (lib : Lib F)
    (order : Nat → List (String × F) → List (String × F)) (config : Config F)
    (hmap : config.PerPackageThreshold = []) (horder : ∀ i l, (order i l).Perm l)
    (results : List (CoverageResult F)) :
    anyBelow lib order config 0 results = true ↔
      ∃ r ∈ results, lib.lt r.Coverage config.Threshold = true := by
  have hb : ∀ j r, belowThreshold lib order config j r = lib.lt r.Coverage config.Threshold := by
    intro j r
    have h := (horder j []).eq_nil
    simp [belowThreshold, hmap, h, packageThreshold]
  rw [anyBelow_iff]
  constructor
  · rintro ⟨j, r, hr, hlt⟩
    rw [hb] at hlt
    exact ⟨r, List.mem_iff_getElem?.mpr ⟨j, hr⟩, hlt⟩
  · rintro ⟨r, hr, hlt⟩
    obtain ⟨j, hj⟩ := List.mem_iff_getElem?.mp hr
    exact ⟨j, r, hj, by rw [hb]; exact hlt⟩

theorem packageThreshold_unique {F : Type} (lib : Lib F) (threshold : F) (pkg p : String)
    (v : F) (hmatch : lib.MatchString p pkg = some true) :
    ∀ (l : List (String × F)), (l.map Prod.fst).Nodup → (p, v) ∈ l →
      (∀ q w, (q, w) ∈ l → q ≠ p → lib.MatchString q pkg ≠ some true) →
      packageThreshold lib threshold pkg l = v := by
  intro l
  induction l with
  | nil => intro _ hp; simp at hp
  | cons e rest ih =>
    obtain ⟨q, w⟩ := e
    intro hnodup hp hother
    simp only [List.map_cons, List.nodup_cons, List.mem_map, not_exists, not_and] at hnodup
    by_cases hq : q = p
    · subst hq
      have hw : w = v := by
        rcases List.mem_cons.mp hp with h | h
        · exact (Prod.mk.inj h).2.symm
        · exact absurd rfl (hnodup.1 (q, v) h)
      simp [packageThreshold, hmatch, hw]
    · have hp' : (p, v) ∈ rest := by
        rcases List.mem_cons.mp hp with h | h
        · exact absurd (Prod.mk.inj h).1.symm hq
        · exact h
      have hrest := ih hnodup.2 hp' (fun q' w' h' => hother q' w' (List.mem_cons_of_mem _ h'))
      have hno := hother q w (List.mem_cons_self _ _) hq
      simp only [packageThreshold]
      cases hm : lib.MatchString q pkg with
      | none => simpa using hrest
      | some b =>
        cases b with
        | false => simpa using hrest
        | true => exact absurd hm hno

/-- C1 (amended): when the per-package threshold map is empty, the overall status of the
report is "fail" exactly when the total coverage is below the global threshold, or the
fail-build flag is set and the coverage of some package result is below the global
threshold; otherwise it is "pass". -/
theorem generateReport_global_only {F : Type} (lib : Lib F)
    (order : Nat → List (String × F) → List (String × F)) (now : String)
    (config : Config F) (results : List (CoverageResult F)) (totalCoverage : F)
    (hmap : config.PerPackageThreshold = []) (horder : ∀ i l, (order i l).Perm l) :
    ((generateReport lib order now config results totalCoverage).Status = statusFail ↔
        (lib.lt totalCoverage config.Threshold = true ∨
          (config.FailBuild = true ∧
            ∃ r ∈ results, lib.lt r.Coverage config.Threshold = true))) ∧
      ((generateReport lib order now config results totalCoverage).Status = statusPass ↔
        ¬ (lib.lt totalCoverage config.Threshold = true ∨
          (config.FailBuild = true ∧
            ∃ r ∈ results, lib.lt r.Coverage config.Threshold = true))) := by
  rw [generateReport_status_eq, ← anyBelow_global lib order config hmap horder results]
  by_cases h : (lib.lt totalCoverage config.Threshold ||
      (config.FailBuild && anyBelow lib order config 0 results)) = true
  · rw [if_pos h]
    simp only [Bool.or_eq_true, Bool.and_eq_true] at h
    exact ⟨⟨fun _ => h, fun _ => rfl⟩,
      ⟨fun hc => absurd hc statusFail_ne_statusPass, fun hc => absurd h hc⟩⟩
  · rw [if_neg h]
    simp only [Bool.or_eq_true, Bool.and_eq_true] at h
    exact ⟨⟨fun hc => absurd hc.symm statusFail_ne_statusPass, fun hc => absurd hc h⟩,
      ⟨fun _ => h, fun _ => rfl⟩⟩

/-- C1, witness: threshold 80, no per-package thresholds, total 82.50 and no package
result: the status is "pass" and the characterisation applies. -/
theorem generateReport_global_only_witness :
    (exampleConfig ⟨80, 1⟩ [] true).PerPackageThreshold = [] ∧
      (generateReport exampleLib (fun _ l => l) "" (exampleConfig ⟨80, 1⟩ [] true) []
        ⟨8250, 100⟩).Status = statusPass ∧
      ((generateReport exampleLib (fun _ l => l) "" (exampleConfig ⟨80, 1⟩ [] true) []
          ⟨8250, 100⟩).Status = statusPass ↔
        ¬ (exampleLib.lt ⟨8250, 100⟩ (exampleConfig ⟨80, 1⟩ [] true).Threshold = true ∨
          ((exampleConfig ⟨80, 1⟩ [] true).FailBuild = true ∧
            ∃ r ∈ ([] : List (CoverageResult Frac)),
              exampleLib.lt r.Coverage (exampleConfig ⟨80, 1⟩ [] true).Threshold = true))) :=
  ⟨rfl, by decide,
    (generateReport_global_only exampleLib (fun _ l => l) "" (exampleConfig ⟨80, 1⟩ [] true) []
      ⟨8250, 100⟩ rfl (fun _ _ => List.Perm.refl _)).2⟩

/-- C1, counterexample: threshold 80 with no per-package thresholds, fail-build set, total
82.50 and one package at 50: the total is not below the threshold, yet the status is
"fail". -/
theorem generateReport_global_only_counterexample :
    (exampleConfig ⟨80, 1⟩ [] true).PerPackageThreshold = [] ∧
      ¬ ((generateReport exampleLib (fun _ l => l) "" (exampleConfig ⟨80, 1⟩ [] true)
            [⟨"pkg", ⟨50, 1⟩, statusPass⟩] ⟨8250, 100⟩).Status = statusFail ↔
          exampleLib.lt ⟨8250, 100⟩ (exampleConfig ⟨80, 1⟩ [] true).Threshold = true) := by
  decide

/-- The scenarios of the specification for a global threshold of 80 and no package
result: a total of 82.50 gives "pass" and a total of 75.00 gives "fail". -/
theorem generateReport_scenarios :
    (generateReport exampleLib (fun _ l => l) "" (exampleConfig ⟨80, 1⟩ [] true) []
        ⟨8250, 100⟩).Status = statusPass ∧
      (generateReport exampleLib (fun _ l => l) "" (exampleConfig ⟨80, 1⟩ [] true) []
        ⟨7500, 100⟩).Status = statusFail := by
  decide

/-- C2: if the name of package result `i` matches the pattern `p` of the per-package map,
mapped to `v`, and no other pattern of the map matches it (each is non-matching or
malformed), then for every iteration order of the map and every global threshold the
threshold applied to the package is `v`, and `generateReport` marks the package "fail"
exactly when its coverage is below `v`: entry `i` of the report is the result with status
"fail" when its coverage is below `v`, and the unchanged result otherwise. -/
theorem generateReport_pattern_threshold {F : Type} (lib : Lib F)
    (order : Nat → List (String × F) → List (String × F)) (now : String)
    (config : Config F) (results : List (CoverageResult F)) (totalCoverage : F)
    (i : Nat) (r : CoverageResult F) (p : String) (v : F)
    (horder : ∀ j l, (order j l).Perm l)
    (hnodup : (config.PerPackageThreshold.map Prod.fst).Nodup)
    (hr : results[i]? = some r)
    (hp : (p, v) ∈ config.PerPackageThreshold)
    (hmatch : lib.MatchString p r.Package = some true)
    (hother : ∀ q w, (q, w) ∈ config.PerPackageThreshold → q ≠ p →
      lib.MatchString q r.Package ≠ some true) :
    ∀ globalThreshold : F,
      packageThreshold lib globalThreshold r.Package (order i config.PerPackageThreshold) = v ∧
      (generateReport lib order now { config with Threshold := globalThreshold } results
          totalCoverage).PackageResults[i]? =
        some (if lib.lt r.Coverage v = true then { r with Status := statusFail } else r) := by
  intro globalThreshold
  have hperm := horder i config.PerPackageThreshold
  have hthr : packageThreshold lib globalThreshold r.Package
      (order i config.PerPackageThreshold) = v := by
    apply packageThreshold_unique lib globalThreshold r.Package p v hmatch
    · exact ((hperm.map Prod.fst).nodup_iff).mpr hnodup
    · exact hperm.mem_iff.mpr hp
    · intro q w hq
      exact hother q w (hperm.mem_iff.mp hq)
  refine ⟨hthr, ?_⟩
  rw [generateReport_results, hr]
  simp only [Option.map_some', belowThreshold, hthr]

/-- C2, witness: pattern `^pkgA` with threshold 90 next to a non-matching and a malformed
pattern, iterated in reverse order, package "pkgA/sub" at 85, global threshold 70 and
total 95: the package is marked "fail". -/
theorem generateReport_pattern_threshold_witness :
    (generateReport exampleLib (fun _ l => l.reverse) ""
        (exampleConfig ⟨70, 1⟩ [("^pkgA", ⟨90, 1⟩), ("^pkgB", ⟨50, 1⟩), ("(", ⟨99, 1⟩)] true)
        [⟨"pkgA/sub", ⟨85, 1⟩, statusPass⟩] ⟨95, 1⟩).PackageResults =
          [⟨"pkgA/sub", ⟨85, 1⟩, statusFail⟩] ∧
      ∀ globalThreshold : Frac,
        packageThreshold exampleLib globalThreshold "pkgA/sub"
            [("^pkgA", (⟨90, 1⟩ : Frac)), ("^pkgB", ⟨50, 1⟩), ("(", ⟨99, 1⟩)].reverse =
          ⟨90, 1⟩ ∧
        (generateReport exampleLib (fun _ l => l.reverse) ""
            { exampleConfig ⟨70, 1⟩ [("^pkgA", ⟨90, 1⟩), ("^pkgB", ⟨50, 1⟩), ("(", ⟨99, 1⟩)] true
              with Threshold := globalThreshold }
            [⟨"pkgA/sub", ⟨85, 1⟩, statusPass⟩] ⟨95, 1⟩).PackageResults[0]? =
          some (if exampleLib.lt ⟨85, 1⟩ ⟨90, 1⟩ = true
            then { (⟨"pkgA/sub", ⟨85, 1⟩, statusPass⟩ : CoverageResult Frac)
              with Status := statusFail }
            else ⟨"pkgA/sub", ⟨85, 1⟩, statusPass⟩) :=
  ⟨by decide,
    generateReport_pattern_threshold exampleLib (fun _ l => l.reverse) ""
      (exampleConfig ⟨70, 1⟩ [("^pkgA", ⟨90, 1⟩), ("^pkgB", ⟨50, 1⟩), ("(", ⟨99, 1⟩)] true)
      [⟨"pkgA/sub", ⟨85, 1⟩, statusPass⟩] ⟨95, 1⟩ 0 ⟨"pkgA/sub", ⟨85, 1⟩, statusPass⟩
      "^pkgA" ⟨90, 1⟩ (fun _ l => List.reverse_perm l) (by decide) rfl
      (by decide) (by decide)
      (by
        intro q w hq hne
        simp only [exampleConfig, List.mem_cons, Prod.mk.injEq, List.mem_singleton,
          List.not_mem_nil, or_false] at hq
        rcases hq with ⟨h, _⟩ | ⟨h, _⟩ | ⟨h, _⟩
        · exact absurd h hne
        · subst h; decide
        · subst h; decide)⟩

/-- The same marking for a result that enters `generateReport` already marked "fail": with
pattern `^p` mapped to 80 and a coverage of 90 the entry is left as it is. -/
theorem generateReport_pattern_threshold_unchanged :
    (generateReport exampleLib (fun _ l => l) "" (exampleConfig ⟨70, 1⟩ [("^p", ⟨80, 1⟩)] true)
        [⟨"p", ⟨90, 1⟩, statusFail⟩] ⟨95, 1⟩).PackageResults =
      [⟨"p", ⟨90, 1⟩, statusFail⟩] := by
  decide

/-- C3: for every configuration, list of package results and total coverage,
`generateReport` marks package result `j` "fail" exactly when its coverage is below its
threshold (entry `j` of the report is then the result with status "fail", and the
unchanged result otherwise), and the overall status of the report is "fail" exactly when
the total coverage is below the global threshold, or the fail-build flag is set and at
least one package result is so marked; otherwise it is "pass". -/
theorem generateReport_status {F : Type} (lib : Lib F)
    (order : Nat → List (String × F) → List (String × F)) (now : String)
    (config : Config F) (results : List (CoverageResult F)) (totalCoverage : F) :
    (∀ j, (generateReport lib order now config results totalCoverage).PackageResults[j]? =
        (results[j]?).map fun r =>
          if lib.lt r.Coverage (packageThreshold lib config.Threshold r.Package
              (order j config.PerPackageThreshold)) = true
          then { r with Status := statusFail } else r) ∧
      ((generateReport lib order now config results totalCoverage).Status = statusFail ↔
        (lib.lt totalCoverage config.Threshold = true ∨
          (config.FailBuild = true ∧
            ∃ j r, results[j]? = some r ∧
              lib.lt r.Coverage (packageThreshold lib config.Threshold r.Package
                (order j config.PerPackageThreshold)) = true))) ∧
      ((generateReport lib order now config results totalCoverage).Status = statusPass ↔
        ¬ (lib.lt totalCoverage config.Threshold = true ∨
          (config.FailBuild = true ∧
            ∃ j r, results[j]? = some r ∧
              lib.lt r.Coverage (packageThreshold lib config.Threshold r.Package
                (order j config.PerPackageThreshold)) = true))) := by
  have hany : anyBelow lib order config 0 results = true ↔
      ∃ j r, results[j]? = some r ∧
        lib.lt r.Coverage (packageThreshold lib config.Threshold r.Package
          (order j config.PerPackageThreshold)) = true := by
    rw [anyBelow_iff]
    simp only [Nat.zero_add, belowThreshold]
  refine ⟨fun j => generateReport_results lib order now config results totalCoverage j, ?_⟩
  rw [generateReport_status_eq, ← hany]
  by_cases h : (lib.lt totalCoverage config.Threshold ||
      (config.FailBuild && anyBelow lib order config 0 results)) = true
  · rw [if_pos h]
    simp only [Bool.or_eq_true, Bool.and_eq_true] at h
    exact ⟨⟨fun _ => h, fun _ => rfl⟩,
      ⟨fun hc => absurd hc statusFail_ne_statusPass, fun hc => absurd h hc⟩⟩
  · rw [if_neg h]
    simp only [Bool.or_eq_true, Bool.and_eq_true] at h
    exact ⟨⟨fun hc => absurd hc.symm statusFail_ne_statusPass, fun hc => absurd hc h⟩,
      ⟨fun _ => h, fun _ => rfl⟩⟩

/-- The entries of a report with status "fail", when no result is marked "fail" on entry:
they are the results that are below their threshold. -/
theorem generateReport_failed_entries {F : Type} (lib : Lib F)
    (order : Nat → List (String × F) → List (String × F)) (now : String)
    (config : Config F) (results : List (CoverageResult F)) (totalCoverage : F)
    (hpass : ∀ r ∈ results, r.Status ≠ statusFail) :
    (∃ r ∈ (generateReport lib order now config results totalCoverage).PackageResults,
        r.Status = statusFail) ↔
      ∃ j r, results[j]? = some r ∧ belowThreshold lib order config j r = true := by
  constructor
  · rintro ⟨m, hm, hs⟩
    obtain ⟨j, hj⟩ := List.mem_iff_getElem?.mp hm
    rw [generateReport_results] at hj
    cases hr : results[j]? with
    | none => rw [hr] at hj; simp at hj
    | some r =>
      rw [hr] at hj
      simp only [Option.map_some', Option.some.injEq] at hj
      refine ⟨j, r, hr, ?_⟩
      by_contra hb
      rw [if_neg hb] at hj
      subst hj
      exact hpass r (List.mem_iff_getElem?.mpr ⟨j, hr⟩) hs
  · rintro ⟨j, r, hr, hb⟩
    refine ⟨{ r with Status := statusFail }, ?_, rfl⟩
    apply List.mem_iff_getElem?.mpr
    exact ⟨j, by rw [generateReport_results, hr]; simp [hb]⟩

/-- Two runs of `generateReport` with global threshold 40, pattern `^a` with threshold 60,
total 90 and one package "a" at 50: with the fail-build flag set the package and the
report are marked "fail"; without it only the package is. -/
theorem generateReport_status_scenarios :
    (generateReport exampleLib (fun _ l => l) ""
        (exampleConfig ⟨40, 1⟩ [("^a", ⟨60, 1⟩)] true) [⟨"a", ⟨50, 1⟩, statusPass⟩]
        ⟨90, 1⟩).Status = statusFail ∧
      (generateReport exampleLib (fun _ l => l) ""
        (exampleConfig ⟨40, 1⟩ [("^a", ⟨60, 1⟩)] false) [⟨"a", ⟨50, 1⟩, statusPass⟩]
        ⟨90, 1⟩).Status = statusPass ∧
      (generateReport exampleLib (fun _ l => l) ""
        (exampleConfig ⟨40, 1⟩ [("^a", ⟨60, 1⟩)] false) [⟨"a", ⟨50, 1⟩, statusPass⟩]
        ⟨90, 1⟩).PackageResults = [⟨"a", ⟨50, 1⟩, statusFail⟩] := by
  decide

/-! ## Facts about loadConfig -/

/-- The fields of a configuration that `loadConfig` returns, read off the environment. -/
theorem loadConfig_ok_fields {F : Type} (lib : Lib F) (env : String → String)
    (config : Config F) (h : loadConfig lib env = .ok config) :
    config.CoverMode = env "PLUGIN_COVER_MODE" ∧
      config.OutputFormat = env "PLUGIN_OUTPUT_FORMAT" ∧
      config.FailBuild = getEnvBool env "PLUGIN_FAIL_BUILD" true ∧
      config.VerboseOutput = getEnvBool env "PLUGIN_VERBOSE_OUTPUT" false := by
  unfold loadConfig at h
  simp only [] at h
  split at h
  · simp at h
  · split at h
    · simp at h
    · split at h
      · simp at h
      · simp only [Except.ok.injEq] at h
        subst h
        exact ⟨rfl, rfl, rfl, rfl⟩

/-- C5, at the failing input: with the threshold set to 80 and every other variable unset,
`loadConfig` succeeds with FailBuild true and VerboseOutput false, but with the empty text
as CoverMode and as OutputFormat instead of "atomic" and "text". -/
theorem loadConfig_defaults_overwritten :
    ∃ config, loadConfig exampleLib (exampleEnv "80" "") = .ok config ∧
      config.FailBuild = true ∧ config.VerboseOutput = false ∧
      config.CoverMode = "" ∧ config.OutputFormat = "" ∧
      config.CoverMode ≠ "atomic" ∧ config.OutputFormat ≠ "text" :=
  ⟨exampleConfig ⟨80, 1⟩ [] true, rfl, rfl, rfl, rfl, rfl, by decide, by decide⟩

/-- The outcome of `loadConfig` when the threshold it read compares equal to zero and the
per-package map it read is empty. -/
theorem loadConfig_no_threshold_of {F : Type} (lib : Lib F) (env : String → String)
    (hthreshold : env "PLUGIN_THRESHOLD" = "" ∨
      ∃ v, lib.ParseFloat (env "PLUGIN_THRESHOLD") = some v ∧ lib.isZero v = true)
    (hmap : env "PLUGIN_PER_PACKAGE_THRESHOLD" = "" ∨
      lib.Unmarshal (env "PLUGIN_PER_PACKAGE_THRESHOLD") = some []) :
    loadConfig lib env = .error "no threshold or per-package threshold set" := by
  unfold loadConfig
  simp only []
  by_cases ht : env "PLUGIN_THRESHOLD" = ""
  · by_cases hm : env "PLUGIN_PER_PACKAGE_THRESHOLD" = ""
    · simp [ht, hm, loadSettings, lib.isZero_zero]
    · rcases hmap with hmap | hmap
      · exact absurd hmap hm
      · simp [ht, hm, hmap, loadSettings, lib.isZero_zero]
  · rcases hthreshold with hthreshold | ⟨v, hv, hz⟩
    · exact absurd hthreshold ht
    · by_cases hm : env "PLUGIN_PER_PACKAGE_THRESHOLD" = ""
      · simp [ht, hm, hv, hz, loadSettings]
      · rcases hmap with hmap | hmap
        · exact absurd hmap hm
        · simp [ht, hm, hmap, hv, hz, loadSettings]

/-- C6: in every environment in which the threshold variable and the per-package threshold
variable are both empty, whatever the other variables hold, `loadConfig` returns an error,
and `main` exits with code 1 without having started any subprocess. -/
theorem loadConfig_requires_threshold {F : Type} (lib : Lib F) (w : World F)
    (hthreshold : w.env "PLUGIN_THRESHOLD" = "")
    (hmap : w.env "PLUGIN_PER_PACKAGE_THRESHOLD" = "") :
    loadConfig lib w.env = .error "no threshold or per-package threshold set" ∧
      main lib w = ⟨1, []⟩ := by
  have h := loadConfig_no_threshold_of lib w.env (Or.inl hthreshold) (Or.inl hmap)
  refine ⟨h, ?_⟩
  unfold main
  rw [h]

/-- C6, witness: an environment that sets only the cover mode and the fail-build flag. -/
theorem loadConfig_requires_threshold_witness :
    loadConfig exampleLib
        (fun key => if key = "PLUGIN_COVER_MODE" then "set"
          else if key = "PLUGIN_FAIL_BUILD" then "false" else "") =
        .error "no threshold or per-package threshold set" ∧
      main exampleLib (exampleWorld
        (fun key => if key = "PLUGIN_COVER_MODE" then "set"
          else if key = "PLUGIN_FAIL_BUILD" then "false" else "")
        "total:\t(statements)\t75.00%\n") = ⟨1, []⟩ :=
  loadConfig_requires_threshold exampleLib (exampleWorld
    (fun key => if key = "PLUGIN_COVER_MODE" then "set"
      else if key = "PLUGIN_FAIL_BUILD" then "false" else "")
    "total:\t(statements)\t75.00%\n") (by decide) (by decide)

/-- C10: when the text of the threshold variable parses to a value that compares equal to
zero, and the per-package threshold variable is empty or decodes to the empty map,
`loadConfig` returns the error "no threshold or per-package threshold set". -/
theorem loadConfig_zero_threshold {F : Type} (lib : Lib F) (env : String → String) (v : F)
    (hparse : lib.ParseFloat (env "PLUGIN_THRESHOLD") = some v)
    (hzero : lib.isZero v = true)
    (hmap : env "PLUGIN_PER_PACKAGE_THRESHOLD" = "" ∨
      lib.Unmarshal (env "PLUGIN_PER_PACKAGE_THRESHOLD") = some []) :
    loadConfig lib env = .error "no threshold or per-package threshold set" :=
  loadConfig_no_threshold_of lib env (Or.inr ⟨v, hparse, hzero⟩) hmap

/-- C10, witness: the threshold text "0.0" together with the empty JSON object. -/
theorem loadConfig_zero_threshold_witness :
    exampleLib.ParseFloat (exampleEnv "0.0" "{}" "PLUGIN_THRESHOLD") = some ⟨0, 10⟩ ∧
      exampleLib.isZero ⟨0, 10⟩ = true ∧
      exampleLib.Unmarshal (exampleEnv "0.0" "{}" "PLUGIN_PER_PACKAGE_THRESHOLD") = some [] ∧
      loadConfig exampleLib (exampleEnv "0.0" "{}") =
        .error "no threshold or per-package threshold set" :=
  ⟨by decide, by decide, by decide,
    loadConfig_zero_threshold exampleLib (exampleEnv "0.0" "{}") ⟨0, 10⟩ (by decide) (by decide)
      (Or.inr (by decide))⟩

/-- The same outcome for the threshold text "0" with the per-package variable unset. -/
theorem loadConfig_zero_threshold_unset :
    loadConfig exampleLib (exampleEnv "0" "") =
      .error "no threshold or per-package threshold set" :=
  rfl

/-! ## Facts about main -/

/-- C4: once `loadConfig` has returned a configuration, the changes of directory it asks
for and the test run have succeeded and `extractCoverage` has returned results, the exit
code of `main` is 1 exactly when the status of the report is "fail" and the fail-build flag
is set, and 0 exactly when not. -/
theorem main_exit_code {F : Type} (lib : Lib F) (w : World F) (config : Config F)
    (results : List (CoverageResult F)) (totalCoverage : F)
    (hconfig : loadConfig lib w.env = .ok config)
    (hchdir : config.Subdirectory ≠ "" → w.chdir config.Subdirectory = true)
    (hmkdir : config.OutputDir ≠ "" → w.mkdirAll config.OutputDir = true)
    (htests : (w.command ("go" :: testArgs config (coverProfilePath config))).isSome = true)
    (hextract : extractCoverage lib w.orderPackages
      (w.command ["go", "tool", "cover", "-func=" ++ coverProfilePath config]) =
        .ok (results, totalCoverage)) :
    ((main lib w).code = 1 ↔
        ((generateReport lib w.orderThresholds w.now config results totalCoverage).Status =
            statusFail ∧ config.FailBuild = true)) ∧
      ((main lib w).code = 0 ↔
        ¬ ((generateReport lib w.orderThresholds w.now config results totalCoverage).Status =
            statusFail ∧ config.FailBuild = true)) := by
  have h1 : ¬ (config.Subdirectory ≠ "" ∧ w.chdir config.Subdirectory = false) := by
    rintro ⟨ha, hb⟩
    rw [hchdir ha] at hb
    exact Bool.noConfusion hb
  have h2 : ¬ (config.OutputDir ≠ "" ∧ w.mkdirAll config.OutputDir = false) := by
    rintro ⟨ha, hb⟩
    rw [hmkdir ha] at hb
    exact Bool.noConfusion hb
  obtain ⟨out, hout⟩ := Option.isSome_iff_exists.mp htests
  unfold main
  simp only [hconfig, if_neg h1, if_neg h2, hout, hextract]
  by_cases h : (generateReport lib w.orderThresholds w.now config results totalCoverage).Status =
      statusFail ∧ config.FailBuild = true
  · simp [h]
  · simp [h]

/-- C4, witness: threshold 80 with fail-build set to true and a listing whose total is
75.00: the process exits with code 1. -/
theorem main_exit_code_witness :
    (main exampleLib (exampleWorld
        (fun key => if key = "PLUGIN_THRESHOLD" then "80"
          else if key = "PLUGIN_FAIL_BUILD" then "true" else "")
        "total:\t(statements)\t75.00%\n")).code = 1 ∧
      ((main exampleLib (exampleWorld
          (fun key => if key = "PLUGIN_THRESHOLD" then "80"
            else if key = "PLUGIN_FAIL_BUILD" then "true" else "")
          "total:\t(statements)\t75.00%\n")).code = 1 ↔
        ((generateReport exampleLib (fun _ l => l) "2024-01-01T00:00:00Z"
            (exampleConfig ⟨80, 1⟩ [] true) [] ⟨7500, 100⟩).Status = statusFail ∧
          (exampleConfig ⟨80, 1⟩ [] true).FailBuild = true)) :=
  ⟨by decide,
    (main_exit_code exampleLib (exampleWorld
        (fun key => if key = "PLUGIN_THRESHOLD" then "80"
          else if key = "PLUGIN_FAIL_BUILD" then "true" else "")
        "total:\t(statements)\t75.00%\n") (exampleConfig ⟨80, 1⟩ [] true) [] ⟨7500, 100⟩
      rfl (by decide) (by decide) rfl rfl).1⟩

/-! ## Facts about extractCoverage -/

theorem mem_of_containsChars (sub : List Char) :
    ∀ (l : List Char), containsChars sub l = true → ∀ c ∈ sub, c ∈ l := by
  intro l
  induction l with
  | nil =>
    intro h c hc
    simp only [containsChars, List.isEmpty_iff] at h
    rw [h] at hc
    exact hc
  | cons x xs ih =>
    intro h c hc
    simp only [containsChars, Bool.or_eq_true] at h
    rcases h with h | h
    · exact (List.isPrefixOf_iff_prefix.mp h).subset hc
    · exact List.mem_cons_of_mem _ (ih h c hc)

theorem pushChar_ne_nil (c : Char) (ends : Bool) (fields : List (List Char)) :
    pushChar c ends fields ≠ [] := by
  unfold pushChar
  cases ends with
  | true => simp
  | false => cases fields <;> simp

theorem fieldsChars_ne_nil (c : Char) (hc : isSpace c = false) :
    ∀ (l : List Char), c ∈ l → fieldsChars l ≠ [] := by
  intro l
  induction l with
  | nil => intro h; simp at h
  | cons x xs ih =>
    intro h
    rw [fieldsChars]
    by_cases hx : isSpace x = true
    · have hmem : c ∈ xs := by
        rcases List.mem_cons.mp h with h | h
        · rw [h, hx] at hc; exact Bool.noConfusion hc
        · exact h
      rw [if_pos hx]
      exact ih hmem
    · rw [if_neg hx]
      exact pushChar_ne_nil _ _ _

/-- A line that contains "total:" is not empty and has at least one field. -/
theorem total_line_fields (line : String) (h : Contains line "total:" = true) :
    line ≠ "" ∧ ∃ last, (Fields line).getLast? = some last := by
  have ht : 't' ∈ line.data := mem_of_containsChars _ _ h 't' (by decide)
  constructor
  · intro he
    rw [he] at ht
    simp at ht
  · have hne : Fields line ≠ [] := by
      simp only [Fields, ne_eq, List.map_eq_nil_iff]
      exact fieldsChars_ne_nil 't' (by decide) _ ht
    cases hf : Fields line with
    | nil => exact absurd hf hne
    | cons a l => exact ⟨(a :: l).getLast (by simp), List.getLast?_eq_getLast _ _⟩

/-- The loop body of `extractCoverage` on a line that is neither empty nor a total line. -/
theorem scanLine_function {F : Type} (lib : Lib F) (acc : Scan F) (line : String)
    (he : line ≠ "") (ht : Contains line "total:" = false) :
    scanLine lib acc line =
      match Fields line with
      | p0 :: p1 :: p2 :: ps =>
        match lib.ParseFloat (TrimSuffix ((p0 :: p1 :: p2 :: ps).getLast (by simp)) '%') with
        | none => acc
        | some coverage =>
          { acc with
            packageCoverageSum := mapSet acc.packageCoverageSum (packageName lib p0)
              (lib.add (mapGet acc.packageCoverageSum (packageName lib p0) lib.zero) coverage)
            packageFuncCount := mapSet acc.packageFuncCount (packageName lib p0)
              (mapGet acc.packageFuncCount (packageName lib p0) 0 + 1) }
      | _ => acc := by
  unfold scanLine
  rw [if_neg he, if_neg (by rw [ht]; exact Bool.false_ne_true)]

theorem scanLine_empty {F : Type} (lib : Lib F) (acc : Scan F) : scanLine lib acc "" = acc := by
  unfold scanLine
  rw [if_pos rfl]

theorem scanLine_total {F : Type} (lib : Lib F) (acc : Scan F) (line : String)
    (ht : Contains line "total:" = true) :
    scanLine lib acc line = { acc with coverageLine := line } := by
  unfold scanLine
  rw [if_neg (total_line_fields line ht).1, if_pos ht]

theorem scanLine_coverageLine {F : Type} (lib : Lib F) (acc : Scan F) (line : String) :
    (scanLine lib acc line).coverageLine =
      if Contains line "total:" = true then line else acc.coverageLine := by
  by_cases ht : Contains line "total:" = true
  · rw [scanLine_total lib acc line ht, if_pos ht]
  · rw [if_neg ht]
    by_cases he : line = ""
    · subst he
      rw [scanLine_empty]
    · rw [scanLine_function lib acc line he (by simpa using ht)]
      split
      · split <;> rfl
      · rfl

theorem foldl_scanLine_coverageLine {F : Type} (lib : Lib F) :
    ∀ (lines : List String) (acc : Scan F),
      (lines.foldl (scanLine lib) acc).coverageLine =
        ((lines.filter fun line => Contains line "total:").getLast?).getD acc.coverageLine := by
  intro lines
  induction lines with
  | nil => intro acc; simp
  | cons line rest ih =>
    intro acc
    simp only [List.foldl_cons]
    rw [ih, scanLine_coverageLine]
    by_cases ht : Contains line "total:" = true
    · simp only [ht, if_true, List.filter_cons_of_pos]
      cases hr : List.filter (fun line => Contains line "total:") rest with
      | nil => simp
      | cons a l =>
        rw [List.getLast?_cons_cons, List.getLast?_eq_getLast (a :: l) (List.cons_ne_nil _ _)]
        rfl
    · simp [ht]

theorem totalLine_contains (output line : String) (h : totalLine output = some line) :
    Contains line "total:" = true := by
  unfold totalLine at h
  have hmem := List.mem_of_getLast?_eq_some h
  exact (List.mem_filter.mp hmem).2

/-- The outcome of the parsing in terms of the total line of the listing. -/
theorem parseCoverage_eq {F : Type} (lib : Lib F)
    (order : List (String × F) → List (String × F)) (output : String) :
    parseCoverage lib order output =
      match totalLine output with
      | none => .error (.error "failed to find total coverage line")
      | some line =>
        match (Fields line).getLast? with
        | none => .error (.panic "index out of range")
        | some last =>
          match lib.ParseFloat (TrimSuffix last '%') with
          | none => .error (.error "failed to parse total coverage")
          | some totalCoverage =>
            .ok (packageResults lib order
              ((Split output '\n').foldl (scanLine lib) ⟨[], [], ""⟩), totalCoverage) := by
  unfold parseCoverage
  simp only []
  rw [foldl_scanLine_coverageLine]
  cases ht : totalLine output with
  | none =>
    unfold totalLine at ht
    rw [ht]
    simp
  | some line =>
    have hne := (total_line_fields line (totalLine_contains output line ht)).1
    unfold totalLine at ht
    rw [ht]
    simp only [Option.getD_some]
    rw [if_pos hne]

/-- C8: on the output of a successful listing subprocess, `extractCoverage` never indexes
outside the fields of the total line (it does not panic); it returns an error exactly when
no line contains "total:" or the last field of the total line, without a trailing "%",
does not parse as a number; and when that field parses, it returns the parsed number as
the total coverage. -/
theorem extractCoverage_total {F : Type} (lib : Lib F)
    (order : List (String × F) → List (String × F)) (output : String) :
    (∀ msg, extractCoverage lib order (some output) ≠ .error (.panic msg)) ∧
      ((∃ msg, extractCoverage lib order (some output) = .error (.error msg)) ↔
        (totalLine output = none ∨
          ∃ line last, totalLine output = some line ∧ (Fields line).getLast? = some last ∧
            lib.ParseFloat (TrimSuffix last '%') = none)) ∧
      (∀ line last totalCoverage, totalLine output = some line →
        (Fields line).getLast? = some last →
        lib.ParseFloat (TrimSuffix last '%') = some totalCoverage →
        ∃ results, extractCoverage lib order (some output) = .ok (results, totalCoverage)) := by
  simp only [extractCoverage]
  rw [parseCoverage_eq]
  cases ht : totalLine output with
  | none => simp
  | some line =>
    obtain ⟨last, hlast⟩ := (total_line_fields line (totalLine_contains output line ht)).2
    simp only [hlast]
    cases hp : lib.ParseFloat (TrimSuffix last '%') with
    | none =>
      refine ⟨by simp, ⟨fun _ => Or.inr ⟨line, last, rfl, hlast, hp⟩, fun _ => ⟨_, rfl⟩⟩, ?_⟩
      intro line' last' total' hl hlast' hp'
      simp only [Option.some.injEq] at hl
      subst hl
      rw [hlast] at hlast'
      simp only [Option.some.injEq] at hlast'
      subst hlast'
      rw [hp] at hp'
      exact Option.noConfusion hp'
    | some total =>
      refine ⟨by simp, ⟨fun h => ?_, fun h => ?_⟩, ?_⟩
      · obtain ⟨msg, hmsg⟩ := h
        exact Except.noConfusion hmsg
      · rcases h with h | ⟨line', last', hl, hlast', hp'⟩
        · exact Option.noConfusion h
        · simp only [Option.some.injEq] at hl
          subst hl
          rw [hlast] at hlast'
          simp only [Option.some.injEq] at hlast'
          subst hlast'
          rw [hp] at hp'
          exact Option.noConfusion hp'
      · intro line' last' total' hl hlast' hp'
        simp only [Option.some.injEq] at hl
        subst hl
        rw [hlast] at hlast'
        simp only [Option.some.injEq] at hlast'
        subst hlast'
        rw [hp] at hp'
        simp only [Option.some.injEq] at hp'
        subst hp'
        exact ⟨_, rfl⟩

/-- The scenario of the specification without a total line: extraction fails with an
explicit error and the process exits with code 1. -/
theorem extractCoverage_no_total_scenario :
    extractCoverage exampleLib (fun l => l) (some "pkg/a.go:12:\tFoo\t85.0%\n") =
        .error (.error "failed to find total coverage line") ∧
      (main exampleLib (exampleWorld (exampleEnv "80" "") "pkg/a.go:12:\tFoo\t85.0%\n")).code
        = 1 :=
  ⟨rfl, by decide⟩

/-- The loop body of `extractCoverage` skips a line without "total:" that has fewer than
three fields or whose last field, without a trailing "%", is not a number. -/
theorem scanLine_malformed {F : Type} (lib : Lib F) (acc : Scan F) (line : String)
    (htotal : Contains line "total:" = false)
    (hmal : (Fields line).length < 3 ∨
      ∀ last, (Fields line).getLast? = some last →
        lib.ParseFloat (TrimSuffix last '%') = none) :
    scanLine lib acc line = acc := by
  by_cases he : line = ""
  · subst he
    exact scanLine_empty lib acc
  · rw [scanLine_function lib acc line he htotal]
    rcases hF : Fields line with _ | ⟨p0, _ | ⟨p1, _ | ⟨p2, ps⟩⟩⟩
    · rfl
    · rfl
    · rfl
    · rw [hF] at hmal
      rcases hmal with hlen | hparse
      · simp only [List.length_cons] at hlen
        omega
      · have h := hparse ((p0 :: p1 :: p2 :: ps).getLast (by simp))
          (List.getLast?_eq_getLast _ _)
        simp only [h]

/-- C9: let a listing on which extraction succeeds have the lines `pre ++ post`, and let
`L` be a line without "total:" that has fewer than three fields or whose last field,
without a trailing "%", is not a number. On the listing with the lines `pre ++ L :: post`
extraction succeeds as well, with the same total coverage and the same package results up
to their order, whatever the iteration orders of the map in the two runs. -/
theorem extractCoverage_skips_malformed {F : Type} (lib : Lib F)
    (order order' : List (String × F) → List (String × F)) (text text' : String)
    (pre post : List String) (L : String) (results : List (CoverageResult F))
    (totalCoverage : F)
    (horder : ∀ l, (order l).Perm l) (horder' : ∀ l, (order' l).Perm l)
    (hsplit : Split text '\n' = pre ++ post)
    (hsplit' : Split text' '\n' = pre ++ L :: post)
    (htotal : Contains L "total:" = false)
    (hmal : (Fields L).length < 3 ∨
      ∀ last, (Fields L).getLast? = some last →
        lib.ParseFloat (TrimSuffix last '%') = none)
    (hok : extractCoverage lib order (some text) = .ok (results, totalCoverage)) :
    ∃ results', extractCoverage lib order' (some text') = .ok (results', totalCoverage) ∧
      results'.Perm results := by
  have hfold : (Split text' '\n').foldl (scanLine lib) ⟨[], [], ""⟩ =
      (Split text '\n').foldl (scanLine lib) ⟨[], [], ""⟩ := by
    rw [hsplit, hsplit', List.foldl_append, List.foldl_append, List.foldl_cons,
      scanLine_malformed lib _ L htotal hmal]
  simp only [extractCoverage, parseCoverage] at hok ⊢
  rw [hfold]
  split at hok
  · rename_i hline
    rw [if_pos hline]
    split at hok
    · exact Except.noConfusion hok
    · split at hok
      · exact Except.noConfusion hok
      · simp only [Except.ok.injEq, Prod.mk.injEq] at hok
        obtain ⟨hres, htot⟩ := hok
        subst hres
        subst htot
        refine ⟨_, rfl, ?_⟩
        unfold packageResults
        exact ((horder' _).trans (horder _).symm).map _
  · exact Except.noConfusion hok

/-- C9, witness: the line "ok pkg/a 0.012s", whose last field is not a number, inserted
between the function line and the total line of a listing. -/
theorem extractCoverage_skips_malformed_witness :
    (∃ results', extractCoverage exampleLib (fun l => l.reverse)
        (some "pkg/a/x.go:12:\tFoo\t85.0%\nok pkg/a 0.012s\ntotal:\t(statements)\t75.00%\n") =
          .ok (results', ⟨7500, 100⟩) ∧
        results'.Perm [⟨"pkg/a", ⟨850, 10⟩, statusPass⟩]) ∧
      extractCoverage exampleLib (fun l => l.reverse)
        (some "pkg/a/x.go:12:\tFoo\t85.0%\nok pkg/a 0.012s\ntotal:\t(statements)\t75.00%\n") =
          .ok ([⟨"pkg/a", ⟨850, 10⟩, statusPass⟩], ⟨7500, 100⟩) :=
  ⟨extractCoverage_skips_malformed exampleLib (fun l => l) (fun l => l.reverse)
      "pkg/a/x.go:12:\tFoo\t85.0%\ntotal:\t(statements)\t75.00%\n"
      "pkg/a/x.go:12:\tFoo\t85.0%\nok pkg/a 0.012s\ntotal:\t(statements)\t75.00%\n"
      ["pkg/a/x.go:12:\tFoo\t85.0%"] ["total:\t(statements)\t75.00%", ""] "ok pkg/a 0.012s"
      [⟨"pkg/a", ⟨850, 10⟩, statusPass⟩] ⟨7500, 100⟩
      (fun l => List.Perm.refl l) (fun l => List.reverse_perm l) (by decide) (by decide)
      (by decide)
      (Or.inr (fun last h => by
        rw [show (Fields "ok pkg/a 0.012s").getLast? = some "0.012s" by decide] at h
        cases h
        decide))
      rfl,
    rfl⟩

/-! ### Packages and their averages -/

theorem lastIndexChars_none (c : Char) :
    ∀ (l : List Char), lastIndexChars c l = none ↔ c ∉ l := by
  intro l
  induction l with
  | nil => simp [lastIndexChars]
  | cons x xs ih =>
    simp only [lastIndexChars, List.mem_cons, not_or]
    cases h : lastIndexChars c xs with
    | none =>
      have hx := ih.mp h
      by_cases hxc : x = c
      · simp [hxc]
      · simp only [hxc, if_false, true_iff]
        exact ⟨fun e => hxc e.symm, hx⟩
    | some i =>
      have hx : ¬ c ∉ xs := fun hn => by
        rw [ih.mpr hn] at h
        exact Option.noConfusion h
      constructor
      · intro e
        exact Option.noConfusion e
      · intro e
        exact absurd e.2 hx

theorem lastIndexChars_some (c : Char) :
    ∀ (l : List Char) (i : Nat), lastIndexChars c l = some i →
      ∃ post, l = l.take i ++ c :: post ∧ c ∉ post := by
  intro l
  induction l with
  | nil => intro i h; simp [lastIndexChars] at h
  | cons x xs ih =>
    intro i h
    simp only [lastIndexChars] at h
    cases hxs : lastIndexChars c xs with
    | none =>
      rw [hxs] at h
      by_cases hxc : x = c
      · simp only [hxc, if_true, Option.some.injEq] at h
        subst h
        exact ⟨xs, by simp [hxc], (lastIndexChars_none c xs).mp hxs⟩
      · simp [hxc] at h
    | some j =>
      rw [hxs] at h
      simp only [Option.some.injEq] at h
      subst h
      obtain ⟨post, hpost, hnot⟩ := ih j hxs
      refine ⟨post, ?_, hnot⟩
      simp only [List.take_succ_cons, List.cons_append]
      rw [← hpost]

theorem dropWhile_append_all {α : Type} (p : α → Bool) :
    ∀ (l₁ l₂ : List α), (∀ x ∈ l₁, p x = true) → (l₁ ++ l₂).dropWhile p = l₂.dropWhile p := by
  intro l₁
  induction l₁ with
  | nil => intro l₂ _; rfl
  | cons a l ih =>
    intro l₂ h
    simp only [List.cons_append, List.dropWhile_cons, h a (List.mem_cons_self _ _), if_true]
    exact ih l₂ (fun x hx => h x (List.mem_cons_of_mem _ hx))

theorem cutAtLast_eq_take (c : Char) (l : List Char) (i : Nat)
    (h : lastIndexChars c l = some i) : cutAtLast c l = l.take i := by
  obtain ⟨post, hpost, hnot⟩ := lastIndexChars_some c l i h
  have hmem : c ∈ l := by
    rw [hpost]
    simp
  unfold cutAtLast
  rw [if_pos hmem]
  have hrev : l.reverse = post.reverse ++ c :: (l.take i).reverse := by
    conv_lhs => rw [hpost]
    simp
  rw [hrev, dropWhile_append_all]
  · simp
  · intro x hx
    have hx' : x ∈ post := List.mem_reverse.mp hx
    have hne : x ≠ c := fun e => hnot (e ▸ hx')
    simpa using hne

/-- The package name that the code derives is the package key of the specification. -/
theorem packageName_eq_packageKey {F : Type} (lib : Lib F) (field : String) :
    packageName lib field = packageKey lib field := by
  unfold packageName packageKey LastIndex
  have hcut : (match lastIndexChars ':' field.data with
      | some idx => String.mk (field.data.take idx)
      | none => field) = String.mk (cutAtLast ':' field.data) := by
    cases h : lastIndexChars ':' field.data with
    | none =>
      have hn := (lastIndexChars_none ':' field.data).mp h
      simp only [cutAtLast, if_neg hn]
    | some i => simp only [cutAtLast_eq_take ':' field.data i h]
  simp only [hcut]
  cases h : lastIndexChars '/' (cutAtLast ':' field.data) with
  | none =>
    have hn := (lastIndexChars_none '/' _).mp h
    simp only [if_neg hn]
  | some i =>
    have hm : '/' ∈ cutAtLast ':' field.data := by
      by_contra hn
      rw [(lastIndexChars_none '/' _).mpr hn] at h
      exact Option.noConfusion h
    simp only [if_pos hm]

theorem mapGet_mapSet {V : Type} (k : String) (v : V) (k' : String) (d : V) :
    ∀ (m : List (String × V)),
      mapGet (mapSet m k v) k' d = if k = k' then v else mapGet m k' d := by
  intro m
  induction m with
  | nil =>
    by_cases h : k = k'
    · simp [mapSet, mapGet, h]
    · simp [mapSet, mapGet, h]
  | cons e rest ih =>
    obtain ⟨a, b⟩ := e
    by_cases ha : a = k
    · subst ha
      by_cases h : a = k'
      · simp [mapSet, mapGet, h]
      · simp [mapSet, mapGet, h]
    · by_cases h : k = k'
      · subst h
        simp only [mapSet, if_neg ha, mapGet, ih, if_true]
      · simp only [mapSet, if_neg ha, mapGet, ih, if_neg h]

theorem mem_keys_mapSet {V : Type} (k : String) (v : V) (k' : String) :
    ∀ (m : List (String × V)),
      k' ∈ (mapSet m k v).map Prod.fst ↔ (k' = k ∨ k' ∈ m.map Prod.fst) := by
  intro m
  induction m with
  | nil => simp [mapSet]
  | cons e rest ih =>
    obtain ⟨a, b⟩ := e
    by_cases ha : a = k
    · subst ha
      simp [mapSet]
    · simp only [mapSet, if_neg ha, List.map_cons, List.mem_cons, ih]
      constructor
      · rintro (h | h | h)
        · exact Or.inr (Or.inl h)
        · exact Or.inl h
        · exact Or.inr (Or.inr h)
      · rintro (h | h | h)
        · exact Or.inr (Or.inl h)
        · exact Or.inl h
        · exact Or.inr (Or.inr h)

theorem nodup_keys_mapSet {V : Type} (k : String) (v : V) :
    ∀ (m : List (String × V)), (m.map Prod.fst).Nodup → ((mapSet m k v).map Prod.fst).Nodup := by
  intro m
  induction m with
  | nil => intro _; simp [mapSet]
  | cons e rest ih =>
    obtain ⟨a, b⟩ := e
    intro h
    simp only [List.map_cons, List.nodup_cons] at h
    by_cases ha : a = k
    · subst ha
      simp only [mapSet, if_true, List.map_cons, List.nodup_cons]
      exact h
    · simp only [mapSet, if_neg ha, List.map_cons, List.nodup_cons]
      refine ⟨?_, ih h.2⟩
      intro hmem
      rcases (mem_keys_mapSet k v a rest).mp hmem with hk | hk
      · exact ha hk
      · exact h.1 hk

theorem mapGet_of_mem {V : Type} (k : String) (v d : V) :
    ∀ (m : List (String × V)), (m.map Prod.fst).Nodup → (k, v) ∈ m → mapGet m k d = v := by
  intro m
  induction m with
  | nil => intro _ h; simp at h
  | cons e rest ih =>
    obtain ⟨a, b⟩ := e
    intro hn h
    simp only [List.map_cons, List.nodup_cons] at hn
    rcases List.mem_cons.mp h with h | h
    · obtain ⟨h1, h2⟩ := Prod.mk.inj h
      simp [mapGet, h1, h2]
    · have hak : a ≠ k := by
        intro e
        apply hn.1
        rw [e]
        exact List.mem_map.mpr ⟨(k, v), h, rfl⟩
      simp only [mapGet, if_neg hak]
      exact ih hn.2 h

/-- The two maps after one iteration of the line loop: unchanged when the line is not a
parsed function line, and updated under the key of the line when it is. -/
theorem scanLine_maps {F : Type} (lib : Lib F) (acc : Scan F) (line : String) :
    ((scanLine lib acc line).packageCoverageSum, (scanLine lib acc line).packageFuncCount) =
      match functionLine lib line with
      | none => (acc.packageCoverageSum, acc.packageFuncCount)
      | some e =>
        (mapSet acc.packageCoverageSum e.1
            (lib.add (mapGet acc.packageCoverageSum e.1 lib.zero) e.2),
          mapSet acc.packageFuncCount e.1 (mapGet acc.packageFuncCount e.1 0 + 1)) := by
  by_cases he : line = ""
  · subst he
    rw [scanLine_empty]
    simp [functionLine]
  · by_cases ht : Contains line "total:" = true
    · rw [scanLine_total lib acc line ht]
      simp [functionLine, ht]
    · have ht' : Contains line "total:" = false := by simpa using ht
      rw [scanLine_function lib acc line he ht']
      unfold functionLine
      rcases hF : Fields line with _ | ⟨p0, _ | ⟨p1, _ | ⟨p2, ps⟩⟩⟩
      · simp
      · simp
      · simp
      · have hcond : ¬ (line = "" ∨ Contains line "total:" = true ∨
            (p0 :: p1 :: p2 :: ps).length < 3) := by
          rintro (h | h | h)
          · exact he h
          · exact ht h
          · simp only [List.length_cons] at h
            omega
        rw [if_neg hcond]
        simp only [List.head?_cons,
          List.getLast?_eq_getLast (p0 :: p1 :: p2 :: ps) (List.cons_ne_nil _ _)]
        cases lib.ParseFloat (TrimSuffix ((p0 :: p1 :: p2 :: ps).getLast
            (List.cons_ne_nil _ _)) '%') with
        | none => rfl
        | some coverage =>
          simp only [Option.map_some', packageName_eq_packageKey]

theorem Tracks_record {F : Type} (lib : Lib F) (sums : List (String × F))
    (counts : List (String × Nat)) (seen : List (String × F)) (e : String × F)
    (h : Tracks lib sums counts seen) :
    Tracks lib (mapSet sums e.1 (lib.add (mapGet sums e.1 lib.zero) e.2))
      (mapSet counts e.1 (mapGet counts e.1 0 + 1)) (seen ++ [e]) := by
  obtain ⟨h1, h2, h3, h4⟩ := h
  refine ⟨nodup_keys_mapSet _ _ _ h1, ?_, ?_, ?_⟩
  · intro k
    rw [mem_keys_mapSet, h2 k]
    simp only [List.map_append, List.map_cons, List.map_nil, List.mem_append,
      List.mem_singleton]
    exact Or.comm
  · intro k
    rw [mapGet_mapSet]
    by_cases hk : e.1 = k
    · rw [if_pos hk, List.filter_append, List.map_append]
      have hf : List.filter (fun e => decide (e.1 = k)) [e] = [e] := by simp [hk]
      rw [hf, hk, h3 k]
      simp [floatSum, List.foldl_append]
    · rw [if_neg hk, List.filter_append]
      have hf : List.filter (fun e => decide (e.1 = k)) [e] = [] := by simp [hk]
      rw [hf, List.append_nil, h3 k]
  · intro k
    rw [mapGet_mapSet]
    by_cases hk : e.1 = k
    · rw [if_pos hk, List.filter_append, List.length_append]
      have hf : List.filter (fun e => decide (e.1 = k)) [e] = [e] := by simp [hk]
      rw [hf, hk, h4 k]
      rfl
    · rw [if_neg hk, List.filter_append]
      have hf : List.filter (fun e => decide (e.1 = k)) [e] = [] := by simp [hk]
      rw [hf, List.append_nil, h4 k]

theorem Tracks_foldl {F : Type} (lib : Lib F) :
    ∀ (lines : List String) (acc : Scan F) (seen : List (String × F)),
      Tracks lib acc.packageCoverageSum acc.packageFuncCount seen →
      Tracks lib (lines.foldl (scanLine lib) acc).packageCoverageSum
        (lines.foldl (scanLine lib) acc).packageFuncCount
        (seen ++ lines.filterMap (functionLine lib)) := by
  intro lines
  induction lines with
  | nil => intro acc seen h; simpa using h
  | cons line rest ih =>
    intro acc seen h
    simp only [List.foldl_cons]
    have hmaps := scanLine_maps lib acc line
    cases hf : functionLine lib line with
    | none =>
      rw [hf] at hmaps
      obtain ⟨hs, hc⟩ := Prod.mk.inj hmaps
      have hstep : Tracks lib (scanLine lib acc line).packageCoverageSum
          (scanLine lib acc line).packageFuncCount seen := by
        rw [hs, hc]
        exact h
      have := ih (scanLine lib acc line) seen hstep
      simpa [List.filterMap_cons, hf] using this
    | some e =>
      rw [hf] at hmaps
      obtain ⟨hs, hc⟩ := Prod.mk.inj hmaps
      have hstep : Tracks lib (scanLine lib acc line).packageCoverageSum
          (scanLine lib acc line).packageFuncCount (seen ++ [e]) := by
        rw [hs, hc]
        exact Tracks_record lib _ _ seen e h
      have := ih (scanLine lib acc line) (seen ++ [e]) hstep
      simpa [List.filterMap_cons, hf] using this

/-- C7: when extraction succeeds, the package results have pairwise distinct package names;
a name is the package of a result exactly when it is the package key of some parsed
function line of the listing; and the coverage of each result is the sum of the
percentages of the function lines with its key, added up from zero in line order, divided
by the number of those lines. -/
theorem extractCoverage_packages {F : Type} (lib : Lib F)
    (order : List (String × F) → List (String × F)) (output : String)
    (results : List (CoverageResult F)) (totalCoverage : F)
    (horder : ∀ l, (order l).Perm l)
    (hok : extractCoverage lib order (some output) = .ok (results, totalCoverage)) :
    (results.map fun r => r.Package).Nodup ∧
      (∀ key, key ∈ (results.map fun r => r.Package) ↔
        ∃ line ∈ Split output '\n', ∃ coverage,
          functionLine lib line = some (key, coverage)) ∧
      (∀ r ∈ results,
        r.Coverage =
          lib.div (floatSum lib (percentages lib (Split output '\n') r.Package))
            (lib.ofInt (percentages lib (Split output '\n') r.Package).length)) := by
  have hres : results =
      packageResults lib order ((Split output '\n').foldl (scanLine lib) ⟨[], [], ""⟩) := by
    simp only [extractCoverage] at hok
    rw [parseCoverage_eq] at hok
    split at hok
    · exact Except.noConfusion hok
    · split at hok
      · exact Except.noConfusion hok
      · split at hok
        · exact Except.noConfusion hok
        · simp only [Except.ok.injEq, Prod.mk.injEq] at hok
          exact hok.1.symm
  have hinit : Tracks lib (⟨[], [], ""⟩ : Scan F).packageCoverageSum
      (⟨[], [], ""⟩ : Scan F).packageFuncCount [] := by
    refine ⟨by simp, by simp, ?_, ?_⟩
    · intro k; simp [mapGet, floatSum]
    · intro k; simp [mapGet]
  have htr := Tracks_foldl lib (Split output '\n') ⟨[], [], ""⟩ [] hinit
  simp only [List.nil_append] at htr
  obtain ⟨h1, h2, h3, h4⟩ := htr
  generalize (Split output '\n').foldl (scanLine lib) ⟨[], [], ""⟩ = acc at hres h1 h2 h3 h4
  have hkeys : (results.map fun r => r.Package) =
      (order acc.packageCoverageSum).map Prod.fst := by
    rw [hres]
    simp [packageResults]
  have hperm := horder acc.packageCoverageSum
  refine ⟨?_, ?_, ?_⟩
  · rw [hkeys]
    exact ((hperm.map Prod.fst).nodup_iff).mpr h1
  · intro key
    rw [hkeys, (hperm.map Prod.fst).mem_iff, h2 key]
    simp only [List.mem_map, List.mem_filterMap, Prod.exists, exists_and_right, exists_eq_right]
    constructor
    · rintro ⟨coverage, line, hline, hf⟩
      exact ⟨line, hline, coverage, hf⟩
    · rintro ⟨line, hline, coverage, hf⟩
      exact ⟨coverage, line, hline, hf⟩
  · intro r hr
    rw [hres] at hr
    simp only [packageResults, List.mem_map] at hr
    obtain ⟨entry, hentry, hr⟩ := hr
    subst hr
    have hmem : (entry.1, entry.2) ∈ acc.packageCoverageSum := hperm.mem_iff.mp hentry
    have hsum := mapGet_of_mem entry.1 entry.2 lib.zero acc.packageCoverageSum h1 hmem
    simp only [percentages, List.length_map]
    rw [← h3 entry.1, ← h4 entry.1, hsum]

/-- C7, witness: two functions of package "pkg/a" at 85 and 65, one function of package
"pkg/b" at 100, a malformed line and the total line. -/
theorem extractCoverage_packages_witness :
    extractCoverage exampleLib (fun l => l)
        (some ("pkg/a/x.go:12:\tFoo\t85.0%\npkg/b/y.go:3:\tBar\t100.0%\nok pkg/a\n" ++
          "pkg/a/x.go:20:\tBaz\t65.0%\ntotal:\t(statements)\t75.00%\n")) =
        .ok ([⟨"pkg/a", ⟨15000, 200⟩, statusPass⟩, ⟨"pkg/b", ⟨1000, 10⟩, statusPass⟩],
          ⟨7500, 100⟩) ∧
      ([(⟨"pkg/a", ⟨15000, 200⟩, statusPass⟩ : CoverageResult Frac),
        ⟨"pkg/b", ⟨1000, 10⟩, statusPass⟩].map fun r => r.Package).Nodup :=
  ⟨rfl,
    (extractCoverage_packages exampleLib (fun l => l)
      ("pkg/a/x.go:12:\tFoo\t85.0%\npkg/b/y.go:3:\tBar\t100.0%\nok pkg/a\n" ++
        "pkg/a/x.go:20:\tBaz\t65.0%\ntotal:\t(statements)\t75.00%\n")
      [⟨"pkg/a", ⟨15000, 200⟩, statusPass⟩, ⟨"pkg/b", ⟨1000, 10⟩, statusPass⟩] ⟨7500, 100⟩
      (fun l => List.Perm.refl l) rfl).1⟩

/-- Every package result that `extractCoverage` returns has status "pass". -/
theorem extractCoverage_status_pass {F : Type} (lib : Lib F)
    (order : List (String × F) → List (String × F)) (output : Option String)
    (results : List (CoverageResult F)) (totalCoverage : F)
    (hok : extractCoverage lib order output = .ok (results, totalCoverage)) :
    ∀ r ∈ results, r.Status = statusPass := by
  cases output with
  | none => exact Except.noConfusion hok
  | some out =>
    simp only [extractCoverage] at hok
    rw [parseCoverage_eq] at hok
    split at hok
    · exact Except.noConfusion hok
    · split at hok
      · exact Except.noConfusion hok
      · split at hok
        · exact Except.noConfusion hok
        · simp only [Except.ok.injEq, Prod.mk.injEq] at hok
          intro r hr
          rw [← hok.1] at hr
          simp only [packageResults, List.mem_map] at hr
          obtain ⟨entry, _, hentry⟩ := hr
          rw [← hentry]

/-- The report built from the results of `extractCoverage`: its status is "fail" exactly
when the total coverage is below the global threshold, or the fail-build flag is set and
some package result of the report has status "fail". -/
theorem generateReport_after_extractCoverage {F : Type} (lib : Lib F)
    (orderPackages : List (String × F) → List (String × F))
    (order : Nat → List (String × F) → List (String × F)) (now : String)
    (config : Config F) (output : Option String)
    (results : List (CoverageResult F)) (totalCoverage : F)
    (hok : extractCoverage lib orderPackages output = .ok (results, totalCoverage)) :
    (generateReport lib order now config results totalCoverage).Status = statusFail ↔
      (lib.lt totalCoverage config.Threshold = true ∨
        (config.FailBuild = true ∧
          ∃ r ∈ (generateReport lib order now config results totalCoverage).PackageResults,
            r.Status = statusFail)) := by
  have hpass : ∀ r ∈ results, r.Status ≠ statusFail := by
    intro r hr h
    rw [extractCoverage_status_pass lib orderPackages output results totalCoverage hok r hr] at h
    exact statusFail_ne_statusPass h.symm
  rw [generateReport_failed_entries lib order now config results totalCoverage hpass,
    generateReport_status_eq]
  have hany := anyBelow_iff lib order config results 0
  simp only [Nat.zero_add] at hany
  rw [← hany]
  by_cases h : (lib.lt totalCoverage config.Threshold ||
      (config.FailBuild && anyBelow lib order config 0 results)) = true
  · rw [if_pos h]
    simp only [Bool.or_eq_true, Bool.and_eq_true] at h
    exact ⟨fun _ => h, fun _ => rfl⟩
  · rw [if_neg h]
    simp only [Bool.or_eq_true, Bool.and_eq_true] at h
    exact ⟨fun hc => absurd hc.symm statusFail_ne_statusPass, fun hc => absurd hc h⟩

end DroneGoCoverage
